import Mathlib

/-!
Shallow embedding of `src/fetch_rack_match.py` (rack-layout / scanner-payload
reconciliation tool) together with proofs about its reconciliation logic.

Modelling conventions:
* Python `str` is modelled by `String`; character-level operations
  (`str.strip`, `str.upper`, the regex character classes) are modelled on
  `List Char` via Unicode code points (`Char.toNat`).  `str.upper` is modelled
  by `Char.toUpper` (basic-latin case mapping), and `str.strip` by removing
  ASCII whitespace from both ends; the tool's tokens are ASCII.
* JSON values are modelled by the inductive `Json`; Python dicts obtained from
  `json.loads` have unique keys, modelled as association lists looked up by
  first match.
* Machine-level concerns (file handles, HTTP transport, argv parsing) are out
  of scope; `runMain` takes the already-read CSV rows and the result of the
  payload fetch/parse as inputs and returns the computed outcome together with
  the list of externally visible output effects.
-/

instance {ε α : Type} [DecidableEq ε] [DecidableEq α] : DecidableEq (Except ε α) := fun x y =>
  match x, y with
  | .ok a, .ok b =>
    if h : a = b then .isTrue (by rw [h]) else .isFalse (by simp [h])
  | .error a, .error b =>
    if h : a = b then .isTrue (by rw [h]) else .isFalse (by simp [h])
  | .ok _, .error _ => .isFalse (by simp)
  | .error _, .ok _ => .isFalse (by simp)

/-- Code points Python's `str.strip` removes at either end (ASCII whitespace:
space, tab, LF, VT, FF, CR). -/
def isPySpace (c : Char) : Bool := decide (c.toNat = 32 ∨ (9 ≤ c.toNat ∧ c.toNat ≤ 13))

/-- Membership in the regex class `[A-Z]` of `normalize_position`. -/
def isRegexUpper (c : Char) : Bool := decide (65 ≤ c.toNat ∧ c.toNat ≤ 90)

/-- Membership in the regex class `\d` (ASCII digits; the tool's tokens are ASCII). -/
def isRegexDigit (c : Char) : Bool := decide (48 ≤ c.toNat ∧ c.toNat ≤ 57)

/-- The literal `0` matched by the `0*` part of the pattern. -/
def isZeroChar (c : Char) : Bool := decide (c.toNat = 48)

/-- Python `str.strip()`: drop leading and trailing whitespace. -/
def stripChars (l : List Char) : List Char :=
  ((l.dropWhile isPySpace).reverse.dropWhile isPySpace).reverse

/-- Python `str.strip()` at the `String` level. -/
def stripStr (s : String) : String := String.mk (stripChars s.data)

/-- Python `str.zfill(2)` on the digit group (no sign is possible, the group
matched `\d+`). -/
def zfill2 (digits : List Char) : List Char :=
  if digits.length ≥ 2 then digits else List.replicate (2 - digits.length) '0' ++ digits

/-- Result of `re.fullmatch(r"([A-Z]+)0*(\d+)", token)`: `some (letters, digits)`
for the two capture groups, `none` when the token does not match.  A full match
exists iff the token is a non-empty run of `[A-Z]` followed by a non-empty run
of digits; greedy matching puts the maximal letter run in group 1 and, of the
digit run, everything after the leading zeros in group 2 — except that when the
digit run is all zeros, `\d+` keeps the final zero. -/
def parsePos (t : List Char) : Option (List Char × List Char) :=
  let letters := t.takeWhile isRegexUpper
  let rest := t.dropWhile isRegexUpper
  if letters.isEmpty ∨ rest.isEmpty ∨ ¬ rest.all isRegexDigit then none
  else
    let digits := rest.dropWhile isZeroChar
    if digits.isEmpty then some (letters, ['0']) else some (letters, digits)

/-- Python `normalize_position`: strip and upper-case the token; if it matches
`([A-Z]+)0*(\d+)` return the letters followed by the digits zero-filled to two
places, otherwise return the token unchanged.  (The `raw is None` guard has no
counterpart: a `String` is never `None`.) -/
def normalize_position (raw : String) : String :=
  let token := (stripChars raw.data).map Char.toUpper
  match parsePos token with
  | none => String.mk token
  | some (row_letters, column_digits) => String.mk (row_letters ++ zfill2 column_digits)

/-- First-match lookup in an association list (Python dict lookup; keys unique). -/
def lookupAssoc {α : Type} (m : List (String × α)) (key : String) : Option α :=
  match m with
  | [] => none
  | (k, v) :: rest => if k = key then some v else lookupAssoc rest key

/-- Python dict assignment `m[k] = v`: replace in place when the key exists,
append otherwise. -/
def upsertAssoc {α : Type} (m : List (String × α)) (key : String) (v : α) :
    List (String × α) :=
  if m.any (fun kv => kv.1 = key) then
    m.map (fun kv => if kv.1 = key then (key, v) else kv)
  else m ++ [(key, v)]

/-- Loop body of `read_layout`: walk the CSV rows keeping the `seen` dict and
the `entries` list.  Error strings mirror the Python messages (without the
interpolated values). -/
def readLayoutAux (rows : List (List String)) (seen : List (String × String))
    (entries : List (String × String)) : Except String (List (String × String)) :=
  match rows with
  | [] => .ok entries
  | row :: rest =>
    if row.isEmpty then readLayoutAux rest seen entries
    else if row.length < 2 then .error "Row has fewer than two columns"
    else
      match row with
      | first :: second :: _ =>
        let position_raw := stripStr first
        let sample_id := stripStr second
        if position_raw = "" then .error "Row is missing a position identifier"
        else
          let normalized := normalize_position position_raw
          match lookupAssoc seen normalized with
          | some previous =>
            if previous ≠ sample_id then
              .error "Duplicate position with conflicting sample IDs"
            else readLayoutAux rest (upsertAssoc seen normalized sample_id)
                   (entries ++ [(normalized, sample_id)])
          | none => readLayoutAux rest (upsertAssoc seen normalized sample_id)
                      (entries ++ [(normalized, sample_id)])
      | _ => .error "Row has fewer than two columns"

/-- Python `read_layout`, over the parsed CSV rows: skip blank rows, require at
least two columns, normalize the position, reject conflicting duplicates, and
fail when no usable rows remain. -/
def read_layout (rows : List (List String)) : Except String (List (String × String)) :=
  match readLayoutAux rows [] [] with
  | .error e => .error e
  | .ok entries =>
    if entries.isEmpty then .error "No usable data found" else .ok entries

/-- JSON values as decoded by `json.loads`: objects are dicts with unique keys
(association lists, first-match lookup), numbers are modelled as integers (the
payload's `itemType` discriminants are integers). -/
inductive Json where
  | null : Json
  | bool (b : Bool) : Json
  | num (n : Int) : Json
  | str (s : String) : Json
  | arr (items : List Json) : Json
  | obj (fields : List (String × Json)) : Json

mutual
/-- Size measure for the explicit-stack traversal's termination. -/
def jsonSize : Json → Nat
  | .null => 1
  | .bool _ => 1
  | .num _ => 1
  | .str _ => 1
  | .arr items => 1 + jsonSizeList items
  | .obj fields => 1 + jsonSizeFields fields

/-- Total size of a list of JSON values. -/
def jsonSizeList : List Json → Nat
  | [] => 0
  | j :: rest => jsonSize j + jsonSizeList rest

/-- Total size of an object's field values. -/
def jsonSizeFields : List (String × Json) → Nat
  | [] => 0
  | kv :: rest => jsonSize kv.2 + jsonSizeFields rest
end

theorem jsonSize_pos (j : Json) : 1 ≤ jsonSize j := by
  cases j <;> simp [jsonSize]

theorem jsonSizeList_append (a b : List Json) :
    jsonSizeList (a ++ b) = jsonSizeList a + jsonSizeList b := by
  induction a with
  | nil => simp [jsonSizeList]
  | cons j rest ih => simp [jsonSizeList, ih]; omega

theorem jsonSizeList_reverse (l : List Json) : jsonSizeList l.reverse = jsonSizeList l := by
  induction l with
  | nil => rfl
  | cons j rest ih =>
    simp [List.reverse_cons, jsonSizeList_append, jsonSizeList, ih]; omega

theorem jsonSizeList_map_snd (fields : List (String × Json)) :
    jsonSizeList (fields.map Prod.snd) = jsonSizeFields fields := by
  induction fields with
  | nil => rfl
  | cons kv rest ih => simp [jsonSizeList, jsonSizeFields, ih]

/-- Python `j.get(key)` on a JSON value known to be a dict (`None` otherwise). -/
def jsonGet (j : Json) (key : String) : Option Json :=
  match j with
  | .obj fields => lookupAssoc fields key
  | _ => none

/-- Python `j.get(key, default)`. -/
def jsonGetD (j : Json) (key : String) (dflt : Json) : Json :=
  match jsonGet j key with
  | some v => v
  | none => dflt

/-- Test from `iter_decode_items`: `"decode" in current and
isinstance(current["decode"], dict)`. -/
def hasDecodeDict (j : Json) : Bool :=
  match jsonGet j "decode" with
  | some (.obj _) => true
  | _ => false

/-- Worklist loop of Python `iter_decode_items`.  The Python list used as a
stack pushes and pops at its end; here the head of the list is the top, so
`stack.extend(xs)` becomes `xs.reverse ++ stack`.  The generator yields a dict
node (before descending into its values) whenever it has a `"decode"` field
holding a dict; the result list is the sequence of yields. -/
def iterDecodeLoop (stack : List Json) : List Json :=
  match stack with
  | [] => []
  | current :: rest =>
    match current with
    | .obj fields =>
      if hasDecodeDict (.obj fields) then
        Json.obj fields :: iterDecodeLoop ((fields.map Prod.snd).reverse ++ rest)
      else iterDecodeLoop ((fields.map Prod.snd).reverse ++ rest)
    | .arr items => iterDecodeLoop (items.reverse ++ rest)
    | .null => iterDecodeLoop rest
    | .bool _ => iterDecodeLoop rest
    | .num _ => iterDecodeLoop rest
    | .str _ => iterDecodeLoop rest
termination_by jsonSizeList stack
decreasing_by
  all_goals
    simp [jsonSizeList_append, jsonSizeList_reverse, jsonSizeList_map_snd, jsonSizeList,
      jsonSize]

/-- Python `iter_decode_items`: all decode-bearing dict nodes of the payload,
in the order the explicit-stack traversal yields them. -/
def iter_decode_items (node : Json) : List Json := iterDecodeLoop [node]

mutual
/-- Formalisation of the spec's description of the tree walker: the collection
of "every mapping node that contains a `decode` field whose value is itself a
mapping", over arbitrarily nested mappings and sequences.  Written from the
spec's words (as a recursive collector, order immaterial) to be compared with
the source-derived `iter_decode_items`. -/
def decodeNodesSpec : Json → List Json
  | .null => []
  | .bool _ => []
  | .num _ => []
  | .str _ => []
  | .arr items => decodeNodesSpecList items
  | .obj fields =>
    (if hasDecodeDict (.obj fields) then [Json.obj fields] else []) ++
      decodeNodesSpecFields fields

/-- Decode nodes of every element of a sequence. -/
def decodeNodesSpecList : List Json → List Json
  | [] => []
  | j :: rest => decodeNodesSpec j ++ decodeNodesSpecList rest

/-- Decode nodes of every value of a mapping. -/
def decodeNodesSpecFields : List (String × Json) → List Json
  | [] => []
  | kv :: rest => decodeNodesSpec kv.2 ++ decodeNodesSpecFields rest
end

/-- Python truthiness (`bool(v)` / `if not v`) of a JSON-decoded value. -/
def jsonTruthy : Json → Bool
  | .null => false
  | .bool b => b
  | .num n => n != 0
  | .str s => s ≠ ""
  | .arr items => ¬ items.isEmpty
  | .obj fields => ¬ fields.isEmpty

/-- Truthiness of a `dict.get` result (`None` when the key is absent is falsy). -/
def optTruthy (o : Option Json) : Bool :=
  match o with
  | none => false
  | some v => jsonTruthy v

mutual
/-- Python `str()` of a JSON-decoded value.  Scalars are rendered exactly
(`str`, `int`, `bool`, `None`); for containers Python uses `repr` formatting,
rendered here in simplified form (scanner decode results and well ids are
scalars, so the container branches are never exercised by the tool's data). -/
def pyStr : Json → String
  | .null => "None"
  | .bool b => if b then "True" else "False"
  | .num n => toString n
  | .str s => s
  | .arr items => "[" ++ pyStrList items ++ "]"
  | .obj fields => "\x7b" ++ pyStrFields fields ++ "\x7d"

/-- Comma-joined rendering of a sequence's elements. -/
def pyStrList : List Json → String
  | [] => ""
  | [j] => pyStr j
  | j :: rest => pyStr j ++ ", " ++ pyStrList rest

/-- Comma-joined rendering of a mapping's entries. -/
def pyStrFields : List (String × Json) → String
  | [] => ""
  | [(k, v)] => k ++ ": " ++ pyStr v
  | (k, v) :: rest => k ++ ": " ++ pyStr v ++ ", " ++ pyStrFields rest
end

/-- Python `item_type == n` where `item_type` is `item.get("itemType")`.  A
Python `bool` compares equal to its integer value (`True == 1`); any other
type (or an absent key, `None`) compares unequal to an `int`. -/
def pyEqInt (o : Option Json) (n : Int) : Bool :=
  match o with
  | some (.num m) => m == n
  | some (.bool b) => (if b then (1 : Int) else 0) == n
  | _ => false

/-- Per-well record stored by `extract_scanner_results`: decoded result text
and the two scan flags. -/
structure Well where
  result : String
  hasTube : Bool
  passed : Bool
deriving DecidableEq

/-- Accumulator of `extract_scanner_results`' loop. -/
structure ScanState where
  rackId : Option String
  wells : List (String × Well)
deriving DecidableEq

/-- Python `decode = item.get("decode") or {}`. -/
def decodeOf (item : Json) : Json :=
  match jsonGet item "decode" with
  | some d => if jsonTruthy d then d else .obj []
  | none => .obj []

/-- Python `item.get("id") or ""`. -/
def idValOf (item : Json) : Json :=
  match jsonGet item "id" with
  | some v => if jsonTruthy v then v else .str ""
  | none => .str ""

/-- Python `decode.get("result")` for a yielded item. -/
def resultOf (item : Json) : Option Json := jsonGet (decodeOf item) "result"

/-- Loop body of `extract_scanner_results` for one yielded decode item. -/
def extractStep (st : ScanState) (item : Json) : ScanState :=
  let item_type := jsonGet item "itemType"
  let decode := decodeOf item
  match jsonGet decode "result" with
  | none => st
  | some result =>
    if ¬ jsonTruthy result then st
    else if pyEqInt item_type 2 && st.rackId.isNone then
      { st with rackId := some (stripStr (pyStr result)) }
    else if pyEqInt item_type 1 then
      let position_raw := stripStr (pyStr (idValOf item))
      if position_raw = "" then st
      else
        let normalized := normalize_position position_raw
        { st with
          wells := upsertAssoc st.wells normalized
            { result := stripStr (pyStr result)
              hasTube := jsonTruthy (jsonGetD decode "hasTube" (.bool false))
              passed := jsonTruthy (jsonGetD decode "passed" (.bool false)) } }
    else st

/-- Python `extract_scanner_results`: fold the loop body over the yielded
decode items, then fail when no rack ID or no well entries were found. -/
def extract_scanner_results (payload : Json) :
    Except String (String × List (String × Well)) :=
  let st := (iter_decode_items payload).foldl extractStep ⟨none, []⟩
  match st.rackId with
  | none => .error "Could not determine rack ID from the scanner payload"
  | some rack_id =>
    if st.wells.isEmpty then
      .error "Scanner payload did not contain any tube decode entries"
    else .ok (rack_id, st.wells)

/-- Python `build_output_rows`: join layout entries against the scanner wells.
A position absent from `scanner_data` reports `no_scan` (a present entry is a
non-empty dict, hence truthy, so `if not scanner_entry` is exactly absence);
otherwise the status is the comma-join of the raised flags, `ok` when none. -/
def build_output_rows (layout : List (String × String))
    (scanner_data : List (String × Well)) : List (String × String × String × String) :=
  layout.map (fun entry =>
    let position := entry.1
    let sample_id := entry.2
    match lookupAssoc scanner_data position with
    | none => (position, sample_id, "", "no_scan")
    | some scanner_entry =>
      let status_flags :=
        (if scanner_entry.hasTube then [] else ["empty"]) ++
          (if scanner_entry.passed then [] else ["decode_failed"])
      let status := if status_flags.isEmpty then "ok" else String.intercalate "," status_flags
      (position, sample_id, scanner_entry.result, status))

/-- Failure classification of a run, mirroring which Python exception aborts
`main`: `rackMismatch` is `RackMismatchError`, the others are the `ValueError`
or transport/parse exceptions raised by the corresponding stage. -/
inductive RunError where
  | csvError (msg : String) : RunError
  | payloadError (msg : String) : RunError
  | extractError (msg : String) : RunError
  | rackMismatch (scanned expected : String) : RunError
deriving DecidableEq

/-- Inputs of one run, after the external collaborators have acted: the stem of
the input CSV filename, the parsed CSV rows, and the result of obtaining the
JSON payload (from `--json-file` or a transport backend; `.error` covers an
unreachable source or invalid JSON from either). -/
structure RunInput where
  csvStem : String
  csvRows : List (List String)
  payload : Except String Json

/-- Externally visible effects of a run on the output CSV.  Warnings on stderr
and the final summary on stdout are not modelled (they never touch the output
file). -/
inductive Effect where
  | wroteOutput (rows : List (String × String × String × String)) : Effect
deriving DecidableEq

/-- Python `main`, from `read_layout` through `write_output`: the computed
result together with the ordered list of effects on the output file.  Each
failing stage raises before `write_output` is reached, so every error path
produces no effect. -/
def runMain (inp : RunInput) : Except RunError (List (String × String × String × String))
    × List Effect :=
  match read_layout inp.csvRows with
  | .error e => (.error (.csvError e), [])
  | .ok layout =>
    match inp.payload with
    | .error e => (.error (.payloadError e), [])
    | .ok payload =>
      match extract_scanner_results payload with
      | .error e => (.error (.extractError e), [])
      | .ok (rack_id, scanner_wells) =>
        if rack_id ≠ inp.csvStem then
          (.error (.rackMismatch rack_id inp.csvStem), [])
        else
          let rows := build_output_rows layout scanner_wells
          (.ok rows, [.wroteOutput rows])

/-- Exit code produced by the `__main__` handler: `main`'s `SystemExit(0)` is
not an `Exception` and exits with 0; `RackMismatchError` exits with 2; every
other `Exception` exits with 1. -/
def exit_code (r : Except RunError (List (String × String × String × String))) : Nat :=
  match r with
  | .ok _ => 0
  | .error (.rackMismatch _ _) => 2
  | .error _ => 1

theorem char_toNat_ofNat {n : Nat} (h : n < 55296) : (Char.ofNat n).toNat = n := by
  rw [Char.ofNat, dif_pos (Or.inl h)]
  rfl

theorem char_toNat_inj {a b : Char} (h : a.toNat = b.toNat) : a = b :=
  Char.ext (UInt32.toNat.inj h)

theorem toUpper_toNat (c : Char) :
    c.toUpper.toNat = if 97 ≤ c.toNat ∧ c.toNat ≤ 122 then c.toNat - 32 else c.toNat := by
  unfold Char.toUpper
  simp only [ge_iff_le]
  by_cases h : 97 ≤ c.toNat ∧ c.toNat ≤ 122
  · rw [if_pos h, if_pos h]
    exact char_toNat_ofNat (by omega)
  · rw [if_neg h, if_neg h]

theorem toUpper_idem (c : Char) : c.toUpper.toUpper = c.toUpper := by
  apply char_toNat_inj
  rw [toUpper_toNat c.toUpper, toUpper_toNat c]
  split_ifs <;> omega

theorem toUpper_eq_of_not_lower {c : Char} (h : ¬ (97 ≤ c.toNat ∧ c.toNat ≤ 122)) :
    c.toUpper = c := by
  apply char_toNat_inj
  rw [toUpper_toNat, if_neg h]

theorem isPySpace_toUpper (c : Char) : isPySpace c.toUpper = isPySpace c := by
  unfold isPySpace
  rw [toUpper_toNat]
  simp only [decide_eq_decide]
  split_ifs with h <;> omega

theorem not_space_of_regexUpper {c : Char} (h : isRegexUpper c = true) :
    isPySpace c = false := by
  simp only [isRegexUpper, decide_eq_true_eq] at h
  simp only [isPySpace, decide_eq_false_iff_not]
  omega

theorem not_space_of_regexDigit {c : Char} (h : isRegexDigit c = true) :
    isPySpace c = false := by
  simp only [isRegexDigit, decide_eq_true_eq] at h
  simp only [isPySpace, decide_eq_false_iff_not]
  omega

theorem not_upper_of_regexDigit {c : Char} (h : isRegexDigit c = true) :
    isRegexUpper c = false := by
  simp only [isRegexDigit, decide_eq_true_eq] at h
  simp only [isRegexUpper, decide_eq_false_iff_not]
  omega

theorem toUpper_fix_of_regexUpper {c : Char} (h : isRegexUpper c = true) :
    c.toUpper = c := by
  simp only [isRegexUpper, decide_eq_true_eq] at h
  exact toUpper_eq_of_not_lower (by omega)

theorem toUpper_fix_of_regexDigit {c : Char} (h : isRegexDigit c = true) :
    c.toUpper = c := by
  simp only [isRegexDigit, decide_eq_true_eq] at h
  exact toUpper_eq_of_not_lower (by omega)

theorem dropWhile_dropWhile_self {α : Type} (p : α → Bool) (l : List α) :
    (l.dropWhile p).dropWhile p = l.dropWhile p := by
  induction l with
  | nil => rfl
  | cons a t ih => by_cases h : p a <;> simp [List.dropWhile_cons, h, ih]

theorem dropWhile_head_false {α : Type} (p : α → Bool) (l : List α) {c : α}
    (h : (l.dropWhile p).head? = some c) : p c = false := by
  induction l with
  | nil => simp [List.dropWhile] at h
  | cons a t ih =>
    by_cases hp : p a
    · rw [List.dropWhile_cons, if_pos hp] at h
      exact ih h
    · rw [List.dropWhile_cons, if_neg hp, List.head?_cons, Option.some_inj] at h
      subst h
      exact Bool.eq_false_iff.mpr hp

theorem dropWhile_eq_self_of_head {α : Type} (p : α → Bool) (l : List α)
    (h : ∀ c, l.head? = some c → p c = false) : l.dropWhile p = l := by
  cases l with
  | nil => rfl
  | cons a t => rw [List.dropWhile_cons, if_neg (by simp [h a rfl])]

theorem exists_append_dropWhile {α : Type} (p : α → Bool) (l : List α) :
    ∃ u, l = u ++ l.dropWhile p := by
  induction l with
  | nil => exact ⟨[], rfl⟩
  | cons a t ih =>
    by_cases h : p a
    · obtain ⟨u, hu⟩ := ih
      refine ⟨a :: u, ?_⟩
      rw [List.dropWhile_cons, if_pos h, List.cons_append, ← hu]
    · exact ⟨[], by rw [List.dropWhile_cons, if_neg h]; rfl⟩

theorem head_append_left {α : Type} {a : List α} (b : List α) {c : α}
    (h : a.head? = some c) : (a ++ b).head? = some c := by
  cases a with
  | nil => simp at h
  | cons x t => simpa using h

theorem map_fix {α : Type} {f : α → α} {l : List α} (h : ∀ c ∈ l, f c = c) :
    l.map f = l := by
  induction l with
  | nil => rfl
  | cons a t ih => rw [List.map_cons, h a (by simp), ih (fun c hc => h c (by simp [hc]))]

theorem stripChars_eq_self {l : List Char}
    (h1 : ∀ c, l.head? = some c → isPySpace c = false)
    (h2 : ∀ c, l.reverse.head? = some c → isPySpace c = false) :
    stripChars l = l := by
  unfold stripChars
  rw [dropWhile_eq_self_of_head _ _ h1, dropWhile_eq_self_of_head _ _ h2, List.reverse_reverse]

theorem stripChars_head_false {l : List Char} {c : Char}
    (h : (stripChars l).head? = some c) : isPySpace c = false := by
  unfold stripChars at h
  obtain ⟨u, hu⟩ := exists_append_dropWhile isPySpace (l.dropWhile isPySpace).reverse
  have hrr : l.dropWhile isPySpace =
      ((l.dropWhile isPySpace).reverse.dropWhile isPySpace).reverse ++ u.reverse := by
    have h' := congrArg List.reverse hu
    rwa [List.reverse_reverse, List.reverse_append] at h'
  have hhead : (l.dropWhile isPySpace).head? = some c := by
    rw [hrr]
    exact head_append_left _ h
  exact dropWhile_head_false isPySpace l hhead

theorem stripChars_reverse_head_false {l : List Char} {c : Char}
    (h : (stripChars l).reverse.head? = some c) : isPySpace c = false := by
  unfold stripChars at h
  rw [List.reverse_reverse] at h
  exact dropWhile_head_false isPySpace _ h

theorem stripChars_map_toUpper (l : List Char) :
    stripChars ((stripChars l).map Char.toUpper) = (stripChars l).map Char.toUpper := by
  apply stripChars_eq_self
  · intro c hc
    rw [List.head?_map] at hc
    cases hh : (stripChars l).head? with
    | none => rw [hh] at hc; simp at hc
    | some d =>
      rw [hh] at hc
      have hcd : d.toUpper = c := by simpa using hc
      rw [← hcd, isPySpace_toUpper]
      exact stripChars_head_false hh
  · intro c hc
    rw [← List.map_reverse, List.head?_map] at hc
    cases hh : (stripChars l).reverse.head? with
    | none => rw [hh] at hc; simp at hc
    | some d =>
      rw [hh] at hc
      have hcd : d.toUpper = c := by simpa using hc
      rw [← hcd, isPySpace_toUpper]
      exact stripChars_reverse_head_false hh

theorem map_toUpper_idem_list (l : List Char) :
    (l.map Char.toUpper).map Char.toUpper = l.map Char.toUpper := by
  rw [List.map_map]
  exact List.map_congr_left (fun a _ => toUpper_idem a)

theorem parsePos_eq_some {t L D : List Char} (h : parsePos t = some (L, D)) :
    L = t.takeWhile isRegexUpper ∧ L ≠ [] ∧
      t.dropWhile isRegexUpper ≠ [] ∧ (t.dropWhile isRegexUpper).all isRegexDigit = true ∧
      (((t.dropWhile isRegexUpper).dropWhile isZeroChar = [] ∧ D = ['0']) ∨
        (D = (t.dropWhile isRegexUpper).dropWhile isZeroChar ∧ D ≠ [])) := by
  unfold parsePos at h
  by_cases h1 : (t.takeWhile isRegexUpper).isEmpty ∨ (t.dropWhile isRegexUpper).isEmpty ∨
      ¬ (t.dropWhile isRegexUpper).all isRegexDigit
  · rw [if_pos h1] at h
    exact absurd h (by simp)
  · rw [if_neg h1] at h
    push_neg at h1
    obtain ⟨hL, hrest, hall⟩ := h1
    by_cases h2 : ((t.dropWhile isRegexUpper).dropWhile isZeroChar).isEmpty
    · rw [if_pos h2] at h
      obtain ⟨rfl, rfl⟩ := Prod.mk.injEq .. ▸ Option.some_inj.mp h
      exact ⟨rfl, by simpa using hL, by simpa using hrest, by simpa using hall,
        Or.inl ⟨by simpa using h2, rfl⟩⟩
    · rw [if_neg h2] at h
      obtain ⟨rfl, rfl⟩ := Prod.mk.injEq .. ▸ Option.some_inj.mp h
      exact ⟨rfl, by simpa using hL, by simpa using hrest, by simpa using hall,
        Or.inr ⟨rfl, by simpa using h2⟩⟩

theorem mem_takeWhile_pred {α : Type} {p : α → Bool} {l : List α} {c : α}
    (h : c ∈ l.takeWhile p) : p c = true := by
  induction l with
  | nil => simp [List.takeWhile] at h
  | cons a t ih =>
    rw [List.takeWhile_cons] at h
    by_cases hp : p a
    · rw [if_pos hp] at h
      rcases List.mem_cons.mp h with he | hm
      · rw [he]; exact hp
      · exact ih hm
    · rw [if_neg hp] at h
      simp at h

theorem mem_of_head?_eq {α : Type} {l : List α} {c : α} (h : l.head? = some c) : c ∈ l := by
  cases l with
  | nil => simp at h
  | cons a t =>
    rw [List.head?_cons, Option.some_inj] at h
    rw [← h]
    exact List.mem_cons_self a t

theorem takeWhile_append_all {α : Type} {p : α → Bool} {a b : List α}
    (ha : ∀ c ∈ a, p c = true) (hb : ∀ c, b.head? = some c → p c = false) :
    (a ++ b).takeWhile p = a := by
  induction a with
  | nil =>
    rw [List.nil_append]
    cases b with
    | nil => rfl
    | cons x t => rw [List.takeWhile_cons, if_neg (by simp [hb x rfl])]
  | cons y a' ih =>
    rw [List.cons_append, List.takeWhile_cons, if_pos (ha y (List.mem_cons_self y a')),
      ih (fun c hc => ha c (List.mem_cons_of_mem y hc))]

theorem dropWhile_append_all {α : Type} {p : α → Bool} {a b : List α}
    (ha : ∀ c ∈ a, p c = true) (hb : ∀ c, b.head? = some c → p c = false) :
    (a ++ b).dropWhile p = b := by
  induction a with
  | nil =>
    rw [List.nil_append]
    exact dropWhile_eq_self_of_head p b hb
  | cons y a' ih =>
    rw [List.cons_append, List.dropWhile_cons, if_pos (ha y (List.mem_cons_self y a')),
      ih (fun c hc => ha c (List.mem_cons_of_mem y hc))]

theorem zfill2_ne_nil {D : List Char} (h : D ≠ []) : zfill2 D ≠ [] := by
  unfold zfill2
  split
  · exact h
  · simp [h]

theorem mem_zfill2 {D : List Char} {c : Char} (h : c ∈ zfill2 D) : c ∈ D ∨ c = '0' := by
  unfold zfill2 at h
  split at h
  · exact Or.inl h
  · rcases List.mem_append.mp h with hr | hd
    · exact Or.inr (List.eq_of_mem_replicate hr)
    · exact Or.inl hd

theorem parsePos_eval {t L R : List Char} (htake : t.takeWhile isRegexUpper = L)
    (hdrop : t.dropWhile isRegexUpper = R) (hLne : L ≠ []) (hRne : R ≠ [])
    (hall : R.all isRegexDigit = true) :
    parsePos t = if (R.dropWhile isZeroChar).isEmpty then some (L, ['0'])
      else some (L, R.dropWhile isZeroChar) := by
  unfold parsePos
  rw [htake, hdrop, if_neg (by simp [hLne, hRne, hall])]

theorem normalize_position_eq (s : String) :
    normalize_position s =
      match parsePos ((stripChars s.data).map Char.toUpper) with
      | none => String.mk ((stripChars s.data).map Char.toUpper)
      | some (row_letters, column_digits) => String.mk (row_letters ++ zfill2 column_digits) :=
  rfl

/-- C10: normalize_position is idempotent: for every input string s,
normalize_position (normalize_position s) = normalize_position s. -/
theorem c10_normalize_position_idempotent (s : String) :
    normalize_position (normalize_position s) = normalize_position s := by
  rw [normalize_position_eq s]
  cases hp : parsePos ((stripChars s.data).map Char.toUpper) with
  | none =>
    have hs : stripChars ((stripChars s.data).map Char.toUpper) =
        (stripChars s.data).map Char.toUpper := stripChars_map_toUpper s.data
    have hm := map_toUpper_idem_list (stripChars s.data)
    rw [normalize_position_eq (String.mk ((stripChars s.data).map Char.toUpper))]
    show (match parsePos ((stripChars ((stripChars s.data).map Char.toUpper)).map Char.toUpper) with
      | none => String.mk ((stripChars ((stripChars s.data).map Char.toUpper)).map Char.toUpper)
      | some (a, b) => String.mk (a ++ zfill2 b)) = String.mk ((stripChars s.data).map Char.toUpper)
    rw [hs, hm, hp]
  | some LD =>
    obtain ⟨L, D⟩ := LD
    obtain ⟨hL, hLne, hrne, hrall, hD⟩ := parsePos_eq_some hp
    have hLall : ∀ c ∈ L, isRegexUpper c = true := by
      rw [hL]; exact fun c hc => mem_takeWhile_pred hc
    have hDall : ∀ c ∈ D, isRegexDigit c = true := by
      rcases hD with ⟨_, hD0⟩ | ⟨hDr, _⟩
      · intro c hc
        rw [hD0] at hc
        simp at hc
        rw [hc]; decide
      · intro c hc
        obtain ⟨u, hu⟩ := exists_append_dropWhile isZeroChar
          (((stripChars s.data).map Char.toUpper).dropWhile isRegexUpper)
        rw [← hDr] at hu
        exact List.all_eq_true.mp hrall c (hu ▸ List.mem_append_right u hc)
    have hDne : D ≠ [] := by
      rcases hD with ⟨_, hD0⟩ | ⟨_, hne⟩
      · rw [hD0]; simp
      · exact hne
    have hzall : ∀ c ∈ zfill2 D, isRegexDigit c = true := by
      intro c hc
      rcases mem_zfill2 hc with hm | h0
      · exact hDall c hm
      · rw [h0]; decide
    have hzne : zfill2 D ≠ [] := zfill2_ne_nil hDne
    -- the output token is already stripped and upper-cased
    have humem : ∀ c ∈ L ++ zfill2 D, isRegexUpper c = true ∨ isRegexDigit c = true := by
      intro c hc
      rcases List.mem_append.mp hc with h | h
      · exact Or.inl (hLall c h)
      · exact Or.inr (hzall c h)
    have hstrip : stripChars (L ++ zfill2 D) = L ++ zfill2 D := by
      apply stripChars_eq_self
      · intro c hc
        rcases humem c (mem_of_head?_eq hc) with h | h
        · exact not_space_of_regexUpper h
        · exact not_space_of_regexDigit h
      · intro c hc
        have hmem := List.mem_reverse.mp (mem_of_head?_eq hc)
        rcases humem c hmem with h | h
        · exact not_space_of_regexUpper h
        · exact not_space_of_regexDigit h
    have hmap : (L ++ zfill2 D).map Char.toUpper = L ++ zfill2 D := by
      apply map_fix
      intro c hc
      rcases humem c hc with h | h
      · exact toUpper_fix_of_regexUpper h
      · exact toUpper_fix_of_regexDigit h
    have htake : (L ++ zfill2 D).takeWhile isRegexUpper = L :=
      takeWhile_append_all hLall
        (fun c hc => not_upper_of_regexDigit (hzall c (mem_of_head?_eq hc)))
    have hdrop : (L ++ zfill2 D).dropWhile isRegexUpper = zfill2 D :=
      dropWhile_append_all hLall
        (fun c hc => not_upper_of_regexDigit (hzall c (mem_of_head?_eq hc)))
    have hzdigit : (zfill2 D).all isRegexDigit = true := List.all_eq_true.mpr hzall
    have hparse := parsePos_eval htake hdrop hLne hzne hzdigit
    rw [normalize_position_eq (String.mk (L ++ zfill2 D))]
    show (match parsePos ((stripChars (L ++ zfill2 D)).map Char.toUpper) with
      | none => String.mk ((stripChars (L ++ zfill2 D)).map Char.toUpper)
      | some (a, b) => String.mk (a ++ zfill2 b)) = String.mk (L ++ zfill2 D)
    rw [hstrip, hmap, hparse]
    -- now the final case analysis on the shape of D
    rcases hD with ⟨hdw, hD0⟩ | ⟨hDr, _⟩
    · -- the digit run was all zeros: D = ['0'], zfill2 D = ['0','0']
      rw [hD0, if_pos (by decide)]
    · -- D is the digit run with leading zeros removed: its head is nonzero
      have hhd : ∀ c, D.head? = some c → isZeroChar c = false := by
        intro c hc
        rw [hDr] at hc
        exact dropWhile_head_false isZeroChar _ hc
      match D, hDne with
      | [d], _ =>
        have hdz : isZeroChar d = false := hhd d rfl
        have hz : zfill2 [d] = ['0', d] := by simp [zfill2, List.replicate]
        have hdrop0 : List.dropWhile isZeroChar (zfill2 [d]) = [d] := by
          rw [hz, List.dropWhile_cons, if_pos (by decide), List.dropWhile_cons,
            if_neg (by simp [hdz])]
        rw [hdrop0, if_neg (by simp)]
      | d1 :: d2 :: tl, _ =>
        have hdz : isZeroChar d1 = false := hhd d1 rfl
        have hz : zfill2 (d1 :: d2 :: tl) = d1 :: d2 :: tl := by
          unfold zfill2
          rw [if_pos (by simp)]
        have hdrop0 : List.dropWhile isZeroChar (zfill2 (d1 :: d2 :: tl)) = d1 :: d2 :: tl := by
          rw [hz, List.dropWhile_cons, if_neg (by simp [hdz])]
        rw [hdrop0, if_neg (by simp)]

/-- C4: normalize_position maps "A1", "a01", and "A01" all to "A01" and maps
"H12" to "H12"; for every input whose stripped upper-cased token does not match
the letters-then-digits pattern, the output is exactly that trimmed and
upper-cased token, with no error (the function is total). -/
theorem c4_normalize_position_spec :
    normalize_position "A1" = "A01" ∧ normalize_position "a01" = "A01" ∧
    normalize_position "A01" = "A01" ∧ normalize_position "H12" = "H12" ∧
    ∀ s : String, parsePos ((stripChars s.data).map Char.toUpper) = none →
      normalize_position s = String.mk ((stripChars s.data).map Char.toUpper) := by
  refine ⟨by decide, by decide, by decide, by decide, ?_⟩
  intro s h
  rw [normalize_position_eq s, h]

/-- Witness for C4: the non-matching token "96-B" (digits before letters)
passes through trimmed and upper-cased. -/
theorem c4_normalize_position_spec_witness :
    parsePos ((stripChars "96-b ".data).map Char.toUpper) = none ∧
      normalize_position "96-b " = String.mk ((stripChars "96-b ".data).map Char.toUpper) :=
  ⟨by decide, c4_normalize_position_spec.2.2.2.2 "96-b " (by decide)⟩

theorem mem_decodeNodesSpecList {items : List Json} {x : Json} :
    x ∈ decodeNodesSpecList items ↔ ∃ j ∈ items, x ∈ decodeNodesSpec j := by
  induction items with
  | nil => simp [decodeNodesSpecList]
  | cons j rest ih => simp [decodeNodesSpecList, ih]

theorem mem_decodeNodesSpecFields {fields : List (String × Json)} {x : Json} :
    x ∈ decodeNodesSpecFields fields ↔ ∃ j ∈ fields.map Prod.snd, x ∈ decodeNodesSpec j := by
  induction fields with
  | nil => simp [decodeNodesSpecFields]
  | cons kv rest ih => simp [decodeNodesSpecFields, ih]

theorem exists_mem_reverse_append {α : Type} (vals rest : List α) (Q : α → Prop) :
    (∃ j ∈ vals.reverse ++ rest, Q j) ↔ ((∃ j ∈ vals, Q j) ∨ (∃ j ∈ rest, Q j)) := by
  simp [List.mem_append, List.mem_reverse, or_and_right, exists_or]

theorem mem_iterDecodeLoop (x : Json) (stack : List Json) :
    x ∈ iterDecodeLoop stack ↔ ∃ j ∈ stack, x ∈ decodeNodesSpec j := by
  induction stack using iterDecodeLoop.induct with
  | case1 => simp [iterDecodeLoop]
  | case2 rest fields hdec ih =>
    have hspec : ∀ y : Json, y ∈ decodeNodesSpec (Json.obj fields) ↔
        (y = Json.obj fields ∨ ∃ j ∈ fields.map Prod.snd, y ∈ decodeNodesSpec j) := by
      intro y
      rw [decodeNodesSpec, if_pos hdec]
      simp [mem_decodeNodesSpecFields]
    rw [iterDecodeLoop, if_pos hdec]
    constructor
    · intro h
      rcases List.mem_cons.mp h with he | hm
      · exact ⟨Json.obj fields, List.mem_cons_self _ _, (hspec x).mpr (Or.inl he)⟩
      · rcases (exists_mem_reverse_append _ _ _).mp (ih.mp hm) with ⟨j, hj, hx⟩ | ⟨j, hj, hx⟩
        · exact ⟨Json.obj fields, List.mem_cons_self _ _, (hspec x).mpr (Or.inr ⟨j, hj, hx⟩)⟩
        · exact ⟨j, List.mem_cons_of_mem _ hj, hx⟩
    · rintro ⟨j, hj, hx⟩
      rcases List.mem_cons.mp hj with rfl | hjr
      · rcases (hspec x).mp hx with he | ⟨j2, hj2, hx2⟩
        · exact List.mem_cons.mpr (Or.inl he)
        · exact List.mem_cons.mpr (Or.inr (ih.mpr
            ((exists_mem_reverse_append _ _ _).mpr (Or.inl ⟨j2, hj2, hx2⟩))))
      · exact List.mem_cons.mpr (Or.inr (ih.mpr
          ((exists_mem_reverse_append _ _ _).mpr (Or.inr ⟨j, hjr, hx⟩))))
  | case3 rest fields hdec ih =>
    have hspec : ∀ y : Json, y ∈ decodeNodesSpec (Json.obj fields) ↔
        (∃ j ∈ fields.map Prod.snd, y ∈ decodeNodesSpec j) := by
      intro y
      rw [decodeNodesSpec, if_neg hdec]
      simp [mem_decodeNodesSpecFields]
    rw [iterDecodeLoop, if_neg hdec]
    constructor
    · intro h
      rcases (exists_mem_reverse_append _ _ _).mp (ih.mp h) with ⟨j, hj, hx⟩ | ⟨j, hj, hx⟩
      · exact ⟨Json.obj fields, List.mem_cons_self _ _, (hspec x).mpr ⟨j, hj, hx⟩⟩
      · exact ⟨j, List.mem_cons_of_mem _ hj, hx⟩
    · rintro ⟨j, hj, hx⟩
      rcases List.mem_cons.mp hj with rfl | hjr
      · rcases (hspec x).mp hx with ⟨j2, hj2, hx2⟩
        exact ih.mpr ((exists_mem_reverse_append _ _ _).mpr (Or.inl ⟨j2, hj2, hx2⟩))
      · exact ih.mpr ((exists_mem_reverse_append _ _ _).mpr (Or.inr ⟨j, hjr, hx⟩))
  | case4 rest items ih =>
    have hspec : ∀ y : Json, y ∈ decodeNodesSpec (Json.arr items) ↔
        (∃ j ∈ items, y ∈ decodeNodesSpec j) := by
      intro y
      rw [decodeNodesSpec]
      exact mem_decodeNodesSpecList
    rw [iterDecodeLoop]
    constructor
    · intro h
      rcases (exists_mem_reverse_append _ _ _).mp (ih.mp h) with ⟨j, hj, hx⟩ | ⟨j, hj, hx⟩
      · exact ⟨Json.arr items, List.mem_cons_self _ _, (hspec x).mpr ⟨j, hj, hx⟩⟩
      · exact ⟨j, List.mem_cons_of_mem _ hj, hx⟩
    · rintro ⟨j, hj, hx⟩
      rcases List.mem_cons.mp hj with rfl | hjr
      · rcases (hspec x).mp hx with ⟨j2, hj2, hx2⟩
        exact ih.mpr ((exists_mem_reverse_append _ _ _).mpr (Or.inl ⟨j2, hj2, hx2⟩))
      · exact ih.mpr ((exists_mem_reverse_append _ _ _).mpr (Or.inr ⟨j, hjr, hx⟩))
  | case5 rest ih =>
    rw [iterDecodeLoop, ih]
    constructor
    · rintro ⟨j, hj, hx⟩
      exact ⟨j, List.mem_cons_of_mem _ hj, hx⟩
    · rintro ⟨j, hj, hx⟩
      rcases List.mem_cons.mp hj with rfl | hjr
      · simp [decodeNodesSpec] at hx
      · exact ⟨j, hjr, hx⟩
  | case6 rest b ih =>
    rw [iterDecodeLoop, ih]
    constructor
    · rintro ⟨j, hj, hx⟩
      exact ⟨j, List.mem_cons_of_mem _ hj, hx⟩
    · rintro ⟨j, hj, hx⟩
      rcases List.mem_cons.mp hj with rfl | hjr
      · simp [decodeNodesSpec] at hx
      · exact ⟨j, hjr, hx⟩
  | case7 rest n ih =>
    rw [iterDecodeLoop, ih]
    constructor
    · rintro ⟨j, hj, hx⟩
      exact ⟨j, List.mem_cons_of_mem _ hj, hx⟩
    · rintro ⟨j, hj, hx⟩
      rcases List.mem_cons.mp hj with rfl | hjr
      · simp [decodeNodesSpec] at hx
      · exact ⟨j, hjr, hx⟩
  | case8 rest s ih =>
    rw [iterDecodeLoop, ih]
    constructor
    · rintro ⟨j, hj, hx⟩
      exact ⟨j, List.mem_cons_of_mem _ hj, hx⟩
    · rintro ⟨j, hj, hx⟩
      rcases List.mem_cons.mp hj with rfl | hjr
      · simp [decodeNodesSpec] at hx
      · exact ⟨j, hjr, hx⟩

/-- C3: for every JSON value, the tree walker yields exactly the mapping nodes
that contain a "decode" key whose value is itself a mapping (membership in its
yield agrees with the spec-side recursive collector `decodeNodesSpec`), and on
the concrete example payload it yields exactly one node. -/
theorem c3_iter_decode_items_spec :
    (∀ payload x : Json, x ∈ iter_decode_items payload ↔ x ∈ decodeNodesSpec payload) ∧
      iter_decode_items (Json.obj [("a", Json.arr
        [Json.obj [("decode", Json.obj [("result", Json.str "X")]), ("itemType", Json.num 1),
          ("id", Json.str "B2")], Json.obj [("foo", Json.num 1)]])]) =
        [Json.obj [("decode", Json.obj [("result", Json.str "X")]), ("itemType", Json.num 1),
          ("id", Json.str "B2")]] := by
  constructor
  · intro payload x
    rw [iter_decode_items, mem_iterDecodeLoop]
    simp
  · simp [iter_decode_items, iterDecodeLoop, hasDecodeDict, jsonGet, lookupAssoc]

/-- Counterexample for C2: loading the CSV rows [("A1","S1"),("A01","S1")]
succeeds but yields TWO entries (read_layout appends every row to the entry
list; the seen map only detects conflicts), so the layout does not contain
exactly one entry. -/
theorem c2_read_layout_counterexample :
    read_layout [["A1", "S1"], ["A01", "S1"]] = .ok [("A01", "S1"), ("A01", "S1")] ∧
      read_layout [["A1", "S1"], ["A01", "S1"]] ≠ .ok [("A01", "S1")] := by
  exact ⟨rfl, by decide⟩

/-- C2 (amended): loading [("A1","S1"),("A01","S1")] succeeds and the layout
contains the entry ("A01","S1") once per input row (two entries, both
normalized, rather than collapsed to one); rows with the same normalized
position but differing sample IDs raise an error. -/
theorem c2_read_layout_amended :
    read_layout [["A1", "S1"], ["A01", "S1"]] = .ok [("A01", "S1"), ("A01", "S1")] ∧
      read_layout [["A1", "S1"], ["A01", "S2"]] =
        .error "Duplicate position with conflicting sample IDs" :=
  ⟨rfl, rfl⟩

/-- C1: every row emitted by build_output_rows carries a status determined by
the scan lookup at its position: absent positions give "no_scan", present ones
the comma-join of "empty" (no tube) and "decode_failed" (decode not passed),
with "ok" when both flags are true; consequently every status is one of
"ok", "no_scan", "empty", "decode_failed", "empty,decode_failed". -/
theorem c1_build_output_rows_status (layout : List (String × String))
    (scanner_data : List (String × Well)) (position sample_id result status : String)
    (h : (position, sample_id, result, status) ∈ build_output_rows layout scanner_data) :
    (status = match lookupAssoc scanner_data position with
      | none => "no_scan"
      | some w =>
        if w.hasTube then (if w.passed then "ok" else "decode_failed")
        else (if w.passed then "empty" else "empty,decode_failed")) ∧
      status ∈ ["ok", "no_scan", "empty", "decode_failed", "empty,decode_failed"] := by
  rcases List.mem_map.mp h with ⟨⟨p, sid⟩, hmem, heq⟩
  simp only at heq
  cases hl : lookupAssoc scanner_data p with
  | none =>
    rw [hl] at heq
    obtain ⟨h1, h2, h3, h4⟩ : p = position ∧ sid = sample_id ∧ "" = result ∧ "no_scan" = status := by
      simpa [Prod.ext_iff] using heq
    subst h1; subst h4
    rw [hl]
    exact ⟨rfl, by simp⟩
  | some w =>
    rw [hl] at heq
    obtain ⟨h1, h2, h3, h4⟩ : p = position ∧ sid = sample_id ∧ w.result = result ∧
        (if ((if w.hasTube then [] else ["empty"]) ++
              (if w.passed then [] else ["decode_failed"])).isEmpty then "ok"
          else String.intercalate ","
            ((if w.hasTube then [] else ["empty"]) ++
              (if w.passed then [] else ["decode_failed"]))) = status := by
      simpa [Prod.ext_iff] using heq
    subst h1
    rw [hl, ← h4]
    by_cases ht : w.hasTube <;> by_cases hp : w.passed <;>
      simp [ht, hp, String.intercalate] <;> decide

/-- Witness for C1 at a concrete failed-decode row. -/
theorem c1_build_output_rows_status_witness :
    (("A01", "S1", "R", "decode_failed") ∈ build_output_rows [("A01", "S1")]
        [("A01", ⟨"R", true, false⟩)]) ∧
      (("decode_failed" : String) =
        match lookupAssoc [("A01", (⟨"R", true, false⟩ : Well))] "A01" with
        | none => "no_scan"
        | some w => if w.hasTube then (if w.passed then "ok" else "decode_failed")
            else (if w.passed then "empty" else "empty,decode_failed")) ∧
      ("decode_failed" : String) ∈
        ["ok", "no_scan", "empty", "decode_failed", "empty,decode_failed"] :=
  ⟨by decide, c1_build_output_rows_status [("A01", "S1")] [("A01", ⟨"R", true, false⟩)]
    "A01" "S1" "R" "decode_failed" (by decide)⟩

/-- Test deciding whether a yielded item supplies the rack ID when none is set
yet: its decode result is truthy and its `itemType` equals 2. -/
def rackQual (item : Json) : Bool :=
  optTruthy (resultOf item) && pyEqInt (jsonGet item "itemType") 2

/-- Test deciding whether a yielded item contributes a well entry: truthy
decode result, `itemType` equal to 1, and a non-empty stripped id. -/
def wellQual (item : Json) : Bool :=
  optTruthy (resultOf item) && pyEqInt (jsonGet item "itemType") 1 &&
    stripStr (pyStr (idValOf item)) != ""

/-- Stripped string form of an item's decode result (the empty string when the
result field is absent; only used on items whose result is present). -/
def resultVal (item : Json) : String :=
  match resultOf item with
  | some r => stripStr (pyStr r)
  | none => ""

/-- Well record recorded for a qualifying type-1 item. -/
def wellVal (item : Json) : Well :=
  { result := resultVal item
    hasTube := jsonTruthy (jsonGetD (decodeOf item) "hasTube" (.bool false))
    passed := jsonTruthy (jsonGetD (decodeOf item) "passed" (.bool false)) }

theorem bool_not_true {b : Bool} (h : ¬ b = true) : b = false := by
  cases b
  · rfl
  · exact absurd rfl h

theorem extractStep_of_falsy {st : ScanState} {item : Json}
    (h : optTruthy (resultOf item) = false) : extractStep st item = st := by
  cases hr : jsonGet (decodeOf item) "result" with
  | none => simp only [extractStep, hr]
  | some r =>
    have hrt : jsonTruthy r = false := by
      rw [resultOf, hr] at h
      simpa [optTruthy] using h
    simp [extractStep, hr, hrt]

theorem pyEqInt_one_not_two {o : Option Json} (h : pyEqInt o 1 = true) :
    pyEqInt o 2 = false := by
  cases o with
  | none => simp [pyEqInt] at h
  | some j =>
    cases j with
    | num n => simp [pyEqInt] at h ⊢; omega
    | bool b => cases b <;> simp [pyEqInt] at h ⊢
    | null => simp [pyEqInt] at h
    | str s => simp [pyEqInt] at h
    | arr l => simp [pyEqInt] at h
    | obj l => simp [pyEqInt] at h

theorem extractStep_rackId {st : ScanState} {item : Json} (h : st.rackId = none) :
    (extractStep st item).rackId =
      if rackQual item then some (resultVal item) else none := by
  cases hr : jsonGet (decodeOf item) "result" with
  | none =>
    have hq : rackQual item = false := by
      simp [rackQual, resultOf, optTruthy, hr]
    simp [extractStep, hr, hq, h]
  | some r =>
    by_cases hrt : jsonTruthy r = true
    · by_cases h2 : pyEqInt (jsonGet item "itemType") 2 = true
      · have hq : rackQual item = true := by
          simp [rackQual, resultOf, optTruthy, hr, hrt, h2]
        simp [extractStep, hr, hrt, h2, h, hq, resultVal, resultOf]
      · have h2f := bool_not_true h2
        have hq : rackQual item = false := by
          simp [rackQual, h2f]
        by_cases hid : stripStr (pyStr (idValOf item)) = "" <;>
          by_cases h1 : pyEqInt (jsonGet item "itemType") 1 = true <;>
          simp [extractStep, hr, hrt, h2f, h, hq, hid, h1]
    · have hrtf := bool_not_true hrt
      have hq : rackQual item = false := by
        simp [rackQual, resultOf, optTruthy, hr, hrtf]
      simp [extractStep, hr, hrtf, hq, h]

theorem extractStep_rackId_some {st : ScanState} {item : Json} {r : String}
    (h : st.rackId = some r) : (extractStep st item).rackId = some r := by
  cases hr : jsonGet (decodeOf item) "result" with
  | none => simp only [extractStep, hr]; exact h
  | some res =>
    by_cases hrt : jsonTruthy res = true
    · by_cases hid : stripStr (pyStr (idValOf item)) = "" <;>
        by_cases h1 : pyEqInt (jsonGet item "itemType") 1 = true <;>
        simp [extractStep, hr, hrt, h, hid, h1]
    · simp [extractStep, hr, bool_not_true hrt, h]

theorem extractStep_wells (st : ScanState) (item : Json) :
    (extractStep st item).wells =
      if wellQual item then
        upsertAssoc st.wells (normalize_position (stripStr (pyStr (idValOf item))))
          (wellVal item)
      else st.wells := by
  cases hr : jsonGet (decodeOf item) "result" with
  | none =>
    have hq : wellQual item = false := by
      simp [wellQual, resultOf, optTruthy, hr]
    simp [extractStep, hr, hq]
  | some r =>
    by_cases hrt : jsonTruthy r = true
    · by_cases h1 : pyEqInt (jsonGet item "itemType") 1 = true
      · have h2f : pyEqInt (jsonGet item "itemType") 2 = false := pyEqInt_one_not_two h1
        by_cases hid : stripStr (pyStr (idValOf item)) = ""
        · have hq : wellQual item = false := by
            simp [wellQual, hid]
          simp [extractStep, hr, hrt, h1, h2f, hid, hq]
        · have hq : wellQual item = true := by
            simp [wellQual, resultOf, optTruthy, hr, hrt, h1, hid]
          simp [extractStep, hr, hrt, h1, h2f, hid, hq, wellVal, resultVal, resultOf]
      · have h1f := bool_not_true h1
        have hq : wellQual item = false := by
          simp [wellQual, h1f]
        by_cases h2 : (pyEqInt (jsonGet item "itemType") 2 && st.rackId.isNone) = true <;>
          simp [extractStep, hr, hrt, h1f, h2, hq]
    · have hrtf := bool_not_true hrt
      have hq : wellQual item = false := by
        simp [wellQual, resultOf, optTruthy, hr, hrtf]
      simp [extractStep, hr, hrtf, hq]

theorem foldl_extractStep_rackId_some {items : List Json} {st : ScanState} {r : String}
    (h : st.rackId = some r) : (items.foldl extractStep st).rackId = some r := by
  induction items generalizing st with
  | nil => exact h
  | cons it rest ih =>
    rw [List.foldl_cons]
    exact ih (extractStep_rackId_some h)

theorem foldl_extractStep_rackId {items : List Json} {st : ScanState}
    (h : st.rackId = none) :
    (items.foldl extractStep st).rackId = ((items.filter rackQual).head?).map resultVal := by
  induction items generalizing st with
  | nil => simpa using h
  | cons it rest ih =>
    rw [List.foldl_cons]
    by_cases hq : rackQual it = true
    · rw [List.filter_cons_of_pos hq, List.head?_cons]
      have hst : (extractStep st it).rackId = some (resultVal it) := by
        rw [extractStep_rackId h, if_pos hq]
      rw [foldl_extractStep_rackId_some hst]
      rfl
    · have hqf := bool_not_true hq
      rw [List.filter_cons_of_neg (by simp [hqf])]
      have hst : (extractStep st it).rackId = none := by
        rw [extractStep_rackId h, if_neg (by simp [hqf])]
      exact ih hst

theorem upsertAssoc_ne_nil {α : Type} (m : List (String × α)) (k : String) (v : α) :
    upsertAssoc m k v ≠ [] := by
  unfold upsertAssoc
  split
  · cases m with
    | nil => simp_all
    | cons a t => simp
  · simp

theorem extractStep_wells_ne_nil {st : ScanState} {item : Json} (h : st.wells ≠ []) :
    (extractStep st item).wells ≠ [] := by
  rw [extractStep_wells]
  split
  · exact upsertAssoc_ne_nil _ _ _
  · exact h

theorem foldl_extractStep_wells_nil_iff (items : List Json) (st : ScanState) :
    (items.foldl extractStep st).wells = [] ↔
      st.wells = [] ∧ ∀ it ∈ items, wellQual it = false := by
  induction items generalizing st with
  | nil => simp
  | cons it rest ih =>
    rw [List.foldl_cons, ih]
    by_cases hq : wellQual it = true
    · constructor
      · rintro ⟨hw, _⟩
        exfalso
        rw [extractStep_wells, if_pos hq] at hw
        exact upsertAssoc_ne_nil _ _ _ hw
      · rintro ⟨hw, hall⟩
        exact absurd (hall it (List.mem_cons_self _ _)) (by simp [hq])
    · have hqf := bool_not_true hq
      rw [extractStep_wells, if_neg hq]
      constructor
      · rintro ⟨hw, hall⟩
        refine ⟨hw, fun x hx => ?_⟩
        rcases List.mem_cons.mp hx with rfl | hxr
        · exact hqf
        · exact hall x hxr
      · rintro ⟨hw, hall⟩
        exact ⟨hw, fun x hx => hall x (List.mem_cons_of_mem _ hx)⟩

theorem mem_upsertAssoc {α : Type} {m : List (String × α)} {k : String} {v : α}
    {kv : String × α} (h : kv ∈ upsertAssoc m k v) : kv ∈ m ∨ kv = (k, v) := by
  unfold upsertAssoc at h
  split at h
  · rcases List.mem_map.mp h with ⟨kv0, hm, he⟩
    by_cases hk : kv0.1 = k
    · rw [if_pos hk] at he
      exact Or.inr he.symm
    · rw [if_neg hk] at he
      exact Or.inl (he ▸ hm)
  · rcases List.mem_append.mp h with hm | hs
    · exact Or.inl hm
    · exact Or.inr (by simpa using hs)

theorem foldl_extractStep_wells_mem {items : List Json} {st : ScanState} {kv : String × Well}
    (h : kv ∈ (items.foldl extractStep st).wells) :
    kv ∈ st.wells ∨ ∃ it ∈ items, wellQual it = true ∧
      kv = (normalize_position (stripStr (pyStr (idValOf it))), wellVal it) := by
  induction items generalizing st with
  | nil => exact Or.inl h
  | cons it rest ih =>
    rw [List.foldl_cons] at h
    rcases ih h with hmem | ⟨x, hx, hq, he⟩
    · by_cases hq' : wellQual it = true
      · rw [extractStep_wells, if_pos hq'] at hmem
        rcases mem_upsertAssoc hmem with hm | he
        · exact Or.inl hm
        · exact Or.inr ⟨it, List.mem_cons_self _ _, hq', he⟩
      · rw [extractStep_wells, if_neg hq'] at hmem
        exact Or.inl hmem
    · exact Or.inr ⟨x, List.mem_cons_of_mem _ hx, hq, he⟩

/-- C6: extract_scanner_results fails exactly when the traversal yields no
rack ID (no decode item with truthy result and itemType 2) or no per-well
entries (no decode item with truthy result, itemType 1 and non-empty id); on
success the returned well map is non-empty. -/
theorem c6_extract_scanner_results_failure (payload : Json) :
    ((∃ e, extract_scanner_results payload = .error e) ↔
      ((iter_decode_items payload).filter rackQual = [] ∨
        ∀ it ∈ iter_decode_items payload, wellQual it = false)) ∧
    (∀ rack_id wells, extract_scanner_results payload = .ok (rack_id, wells) →
      wells ≠ []) := by
  cases hh : ((iter_decode_items payload).filter rackQual).head? with
  | none =>
    have hrid : ((iter_decode_items payload).foldl extractStep ⟨none, []⟩).rackId = none := by
      rw [foldl_extractStep_rackId rfl, hh]
      rfl
    have hex : extract_scanner_results payload =
        .error "Could not determine rack ID from the scanner payload" := by
      simp only [extract_scanner_results, hrid]
    constructor
    · simp [hex, List.head?_eq_none_iff.mp hh]
    · intro rid wells hok
      rw [hex] at hok
      exact absurd hok (by simp)
  | some v =>
    have hrid : ((iter_decode_items payload).foldl extractStep ⟨none, []⟩).rackId =
        some (resultVal v) := by
      rw [foldl_extractStep_rackId rfl, hh]
      rfl
    have hfne : (iter_decode_items payload).filter rackQual ≠ [] := by
      intro hnil
      rw [hnil] at hh
      simp at hh
    by_cases hw : ((iter_decode_items payload).foldl extractStep ⟨none, []⟩).wells = []
    · have hex : extract_scanner_results payload =
          .error "Scanner payload did not contain any tube decode entries" := by
        simp only [extract_scanner_results, hrid]
        rw [if_pos (by simp [hw])]
      have hall : ∀ it ∈ iter_decode_items payload, wellQual it = false :=
        ((foldl_extractStep_wells_nil_iff _ _).mp hw).2
      constructor
      · simp only [hex]
        constructor
        · intro _
          exact Or.inr hall
        · intro _
          exact ⟨_, rfl⟩
      · intro rid wells hok
        rw [hex] at hok
        exact absurd hok (by simp)
    · have hex : extract_scanner_results payload =
          .ok (resultVal v,
            ((iter_decode_items payload).foldl extractStep ⟨none, []⟩).wells) := by
        simp only [extract_scanner_results, hrid]
        rw [if_neg (by simp [hw])]
      constructor
      · simp only [hex]
        constructor
        · rintro ⟨e, he⟩
          exact absurd he (by simp)
        · rintro (hnil | hall)
          · exact absurd hnil hfne
          · exact absurd ((foldl_extractStep_wells_nil_iff _ _).mpr ⟨rfl, hall⟩) hw
      · intro rid wells hok
        rw [hex] at hok
        have hinj := Except.ok.inj hok
        have hwe : wells = ((iter_decode_items payload).foldl extractStep ⟨none, []⟩).wells :=
          (Prod.mk.injEq .. ▸ hinj).2.symm
        rw [hwe]
        exact hw

/-- C7 (amended): the rack ID returned by extract_scanner_results is the
stripped decode result of the first itemType-2 node with a truthy result
encountered in the traversal (later type-2 nodes never change it), and every
entry of the well map comes from an itemType-1 node with truthy result and
non-empty id, keyed by its normalized "id" field. -/
theorem c7_extract_rack_first_truthy_type2 (payload : Json) (rack_id : String)
    (wells : List (String × Well))
    (h : extract_scanner_results payload = .ok (rack_id, wells)) :
    some rack_id = ((iter_decode_items payload).filter rackQual).head?.map resultVal ∧
      ∀ kv ∈ wells, ∃ it ∈ iter_decode_items payload, wellQual it = true ∧
        kv = (normalize_position (stripStr (pyStr (idValOf it))), wellVal it) := by
  have hrid := @foldl_extractStep_rackId (iter_decode_items payload) ⟨none, []⟩ rfl
  cases hr : ((iter_decode_items payload).foldl extractStep ⟨none, []⟩).rackId with
  | none =>
    simp only [extract_scanner_results, hr] at h
    exact absurd h (by simp)
  | some rid =>
    simp only [extract_scanner_results, hr] at h
    by_cases hw : (((iter_decode_items payload).foldl extractStep ⟨none, []⟩).wells).isEmpty
    · rw [if_pos hw] at h
      exact absurd h (by simp)
    · rw [if_neg hw] at h
      have hinj := Except.ok.inj h
      have h1 : rid = rack_id := (Prod.mk.injEq .. ▸ hinj).1
      have h2 : ((iter_decode_items payload).foldl extractStep ⟨none, []⟩).wells = wells :=
        (Prod.mk.injEq .. ▸ hinj).2
      constructor
      · rw [← h1, ← hr, hrid]
      · intro kv hkv
        rw [← h2] at hkv
        rcases foldl_extractStep_wells_mem hkv with hnil | hprov
        · exact absurd hnil (by simp)
        · exact hprov

def rackItem (rid : String) : Json :=
  .obj [("decode", .obj [("result", .str rid)]), ("itemType", .num 2)]

def wellItem (well_id res : String) (tube pass : Bool) : Json :=
  .obj [("decode", .obj [("result", .str res), ("hasTube", .bool tube),
    ("passed", .bool pass)]), ("itemType", .num 1), ("id", .str well_id)]

/-- Counterexample for C7: in this payload the first itemType-2 node the
traversal encounters has decode result "" (falsy), yet the returned rack ID is
"RACK", taken from the second type-2 node — so the rack ID is not the decode
result of the first itemType-2 node encountered. -/
theorem c7_first_type2_counterexample :
    iter_decode_items (Json.arr [wellItem "A1" "W1" true true, rackItem "RACK", rackItem ""]) =
        [rackItem "", rackItem "RACK", wellItem "A1" "W1" true true] ∧
      ((iter_decode_items (Json.arr [wellItem "A1" "W1" true true, rackItem "RACK",
          rackItem ""])).filter
            (fun it => pyEqInt (jsonGet it "itemType") 2)).head? = some (rackItem "") ∧
      resultOf (rackItem "") = some (.str "") ∧
      extract_scanner_results
          (Json.arr [wellItem "A1" "W1" true true, rackItem "RACK", rackItem ""]) =
        .ok ("RACK", [("A01", ⟨"W1", true, true⟩)]) ∧
      ("RACK" : String) ≠ "" := by
  refine ⟨?_, ?_, ?_, ?_, by decide⟩
  · simp [iter_decode_items, iterDecodeLoop, hasDecodeDict, jsonGet, lookupAssoc,
      rackItem, wellItem]
  · simp [iter_decode_items, iterDecodeLoop, hasDecodeDict, jsonGet, lookupAssoc,
      rackItem, wellItem, pyEqInt]
  · simp [resultOf, decodeOf, jsonGet, lookupAssoc, rackItem, jsonTruthy]
  · simp [extract_scanner_results, iter_decode_items, iterDecodeLoop, hasDecodeDict,
      jsonGet, lookupAssoc, rackItem, wellItem, extractStep, decodeOf, idValOf,
      jsonTruthy, pyEqInt, pyStr, stripStr, stripChars, isPySpace, jsonGetD, upsertAssoc]
    decide

/-- C9: a decode item whose result is missing, empty or otherwise falsy is
skipped entirely by the extraction step (state unchanged, so a type-1 node
contributes no well entry and a type-2 node supplies no rack ID); concretely, a
layout position whose only scan entry had an empty result reconciles as
"no_scan". -/
theorem c9_falsy_result_skipped :
    (∀ (st : ScanState) (item : Json), optTruthy (resultOf item) = false →
        extractStep st item = st) ∧
      extract_scanner_results (Json.arr [rackItem "R9", wellItem "A01" "" true true,
          wellItem "B01" "W" true true]) = .ok ("R9", [("B01", ⟨"W", true, true⟩)]) ∧
      build_output_rows [("A01", "S1")] [("B01", ⟨"W", true, true⟩)] =
        [("A01", "S1", "", "no_scan")] := by
  refine ⟨fun st item h => extractStep_of_falsy h, ?_, ?_⟩
  · simp [extract_scanner_results, iter_decode_items, iterDecodeLoop, hasDecodeDict,
      jsonGet, lookupAssoc, rackItem, wellItem, extractStep, decodeOf, idValOf,
      jsonTruthy, pyEqInt, pyStr, stripStr, stripChars, isPySpace, jsonGetD, upsertAssoc]
    decide
  · decide

/-- Witness for C6 at a concrete successful extraction. -/
theorem c6_extract_scanner_results_failure_witness :
    ([("B01", (⟨"W", true, true⟩ : Well))] : List (String × Well)) ≠ [] :=
  (c6_extract_scanner_results_failure (Json.arr [rackItem "R9", wellItem "B01" "W" true true])).2 "R9"
    [("B01", ⟨"W", true, true⟩)] (by
      simp [extract_scanner_results, iter_decode_items, iterDecodeLoop, hasDecodeDict,
        jsonGet, lookupAssoc, rackItem, wellItem, extractStep, decodeOf, idValOf,
        jsonTruthy, pyEqInt, pyStr, stripStr, stripChars, isPySpace, jsonGetD, upsertAssoc]
      decide)

/-- Witness for the amended C7 at a concrete successful extraction. -/
theorem c7_extract_rack_first_truthy_type2_witness :
    some "R9" = ((iter_decode_items (Json.arr [rackItem "R9",
        wellItem "B01" "W" true true])).filter rackQual).head?.map resultVal ∧
      ∀ kv ∈ ([("B01", (⟨"W", true, true⟩ : Well))] : List (String × Well)),
        ∃ it ∈ iter_decode_items (Json.arr [rackItem "R9", wellItem "B01" "W" true true]),
          wellQual it = true ∧
            kv = (normalize_position (stripStr (pyStr (idValOf it))), wellVal it) :=
  c7_extract_rack_first_truthy_type2 (Json.arr [rackItem "R9", wellItem "B01" "W" true true]) "R9"
    [("B01", ⟨"W", true, true⟩)] (by
      simp [extract_scanner_results, iter_decode_items, iterDecodeLoop, hasDecodeDict,
        jsonGet, lookupAssoc, rackItem, wellItem, extractStep, decodeOf, idValOf,
        jsonTruthy, pyEqInt, pyStr, stripStr, stripChars, isPySpace, jsonGetD, upsertAssoc]
      decide)

/-- Witness for C9 at a concrete type-1 item with empty result. -/
theorem c9_falsy_result_skipped_witness :
    optTruthy (resultOf (wellItem "A01" "" true true)) = false ∧
      extractStep ⟨none, []⟩ (wellItem "A01" "" true true) = ⟨none, []⟩ :=
  ⟨by decide, c9_falsy_result_skipped.1 ⟨none, []⟩ (wellItem "A01" "" true true) (by decide)⟩

/-- C8: every failing run (CSV error, payload fetch/parse error, extraction
error, or rack-ID mismatch) produces no effect on the output CSV: write_output
is reached only after every check has passed, so the error paths emit no
wroteOutput effect and the output file is untouched. -/
theorem c8_no_output_on_failure (inp : RunInput) (e : RunError)
    (h : (runMain inp).1 = .error e) : (runMain inp).2 = [] := by
  cases hl : read_layout inp.csvRows with
  | error msg => simp [runMain, hl]
  | ok layout =>
    cases hp : inp.payload with
    | error msg => simp [runMain, hl, hp]
    | ok payload =>
      cases hx : extract_scanner_results payload with
      | error msg => simp [runMain, hl, hp, hx]
      | ok rw0 =>
        obtain ⟨rack_id, wells⟩ := rw0
        by_cases hm : rack_id ≠ inp.csvStem
        · simp [runMain, hl, hp, hx, hm]
        · simp only [runMain, hl, hp, hx, if_neg hm] at h
          exact absurd h (by simp)

/-- Witness for C8 at a concrete failing run (empty CSV). -/
theorem c8_no_output_on_failure_witness :
    (runMain ⟨"R9", [], .error "connection refused"⟩).2 = [] :=
  c8_no_output_on_failure ⟨"R9", [], .error "connection refused"⟩
    (.csvError "No usable data found") (by rfl)

/-- C5: the program exits with code 2 exactly when the layout loaded, the
payload was obtained, extraction succeeded, and the extracted rack ID differs
from the CSV filename stem (the RackMismatchError path); it exits 0 exactly on
success, and 1 exactly on any other failure. -/
theorem c5_exit_codes (inp : RunInput) :
    (exit_code (runMain inp).1 = 2 ↔
      ∃ layout payload rack_id wells,
        read_layout inp.csvRows = .ok layout ∧ inp.payload = .ok payload ∧
          extract_scanner_results payload = .ok (rack_id, wells) ∧
          rack_id ≠ inp.csvStem) ∧
    (exit_code (runMain inp).1 = 0 ↔ ∃ rows, (runMain inp).1 = .ok rows) ∧
    (exit_code (runMain inp).1 = 1 ↔
      ∃ e, (runMain inp).1 = .error e ∧ ∀ s t, e ≠ RunError.rackMismatch s t) := by
  cases hl : read_layout inp.csvRows with
  | error msg =>
    have hrm : (runMain inp).1 = .error (.csvError msg) := by simp [runMain, hl]
    refine ⟨⟨?_, ?_⟩, ⟨?_, ?_⟩, ⟨?_, ?_⟩⟩
    · intro hc; rw [hrm] at hc; simp [exit_code] at hc
    · rintro ⟨l, p, r, w, hlok, _⟩
      exact absurd hlok (by simp)
    · intro hc; rw [hrm] at hc; simp [exit_code] at hc
    · rintro ⟨rows, hok⟩
      rw [hrm] at hok
      exact absurd hok (by simp)
    · intro _
      exact ⟨.csvError msg, hrm, fun s t => by simp⟩
    · intro _
      rw [hrm]
      simp [exit_code]
  | ok layout =>
    cases hp : inp.payload with
    | error msg =>
      have hrm : (runMain inp).1 = .error (.payloadError msg) := by simp [runMain, hl, hp]
      refine ⟨⟨?_, ?_⟩, ⟨?_, ?_⟩, ⟨?_, ?_⟩⟩
      · intro hc; rw [hrm] at hc; simp [exit_code] at hc
      · rintro ⟨l, p, r, w, _, hpok, _⟩
        exact absurd hpok (by simp)
      · intro hc; rw [hrm] at hc; simp [exit_code] at hc
      · rintro ⟨rows, hok⟩
        rw [hrm] at hok
        exact absurd hok (by simp)
      · intro _
        exact ⟨.payloadError msg, hrm, fun s t => by simp⟩
      · intro _
        rw [hrm]
        simp [exit_code]
    | ok payload =>
      cases hx : extract_scanner_results payload with
      | error msg =>
        have hrm : (runMain inp).1 = .error (.extractError msg) := by
          simp [runMain, hl, hp, hx]
        refine ⟨⟨?_, ?_⟩, ⟨?_, ?_⟩, ⟨?_, ?_⟩⟩
        · intro hc; rw [hrm] at hc; simp [exit_code] at hc
        · rintro ⟨l, p, r, w, _, hpok, hxok, _⟩
          have hpe : p = payload := (Except.ok.inj hpok).symm
          rw [hpe, hx] at hxok
          exact absurd hxok (by simp)
        · intro hc; rw [hrm] at hc; simp [exit_code] at hc
        · rintro ⟨rows, hok⟩
          rw [hrm] at hok
          exact absurd hok (by simp)
        · intro _
          exact ⟨.extractError msg, hrm, fun s t => by simp⟩
        · intro _
          rw [hrm]
          simp [exit_code]
      | ok rw0 =>
        obtain ⟨rack_id, wells⟩ := rw0
        by_cases hm : rack_id ≠ inp.csvStem
        · have hrm : (runMain inp).1 = .error (.rackMismatch rack_id inp.csvStem) := by
            simp only [runMain, hl, hp, hx, if_pos hm]
          refine ⟨⟨?_, ?_⟩, ⟨?_, ?_⟩, ⟨?_, ?_⟩⟩
          · intro _
            exact ⟨layout, payload, rack_id, wells, rfl, rfl, hx, hm⟩
          · intro _
            rw [hrm]
            rfl
          · intro hc; rw [hrm] at hc; simp [exit_code] at hc
          · rintro ⟨rows, hok⟩
            rw [hrm] at hok
            exact absurd hok (by simp)
          · intro hc; rw [hrm] at hc; simp [exit_code] at hc
          · rintro ⟨e, he, hne⟩
            rw [hrm] at he
            have : e = .rackMismatch rack_id inp.csvStem := (Except.error.inj he).symm
            exact absurd this (hne rack_id inp.csvStem)
        · have hrm : (runMain inp).1 = .ok (build_output_rows layout wells) := by
            simp only [runMain, hl, hp, hx, if_neg hm]
          refine ⟨⟨?_, ?_⟩, ⟨?_, ?_⟩, ⟨?_, ?_⟩⟩
          · intro hc; rw [hrm] at hc; simp [exit_code] at hc
          · rintro ⟨l, p, r, w, hlok, hpok, hxok, hne⟩
            have hpe : p = payload := (Except.ok.inj hpok).symm
            rw [hpe, hx] at hxok
            have hre : rack_id = r := (Prod.mk.injEq .. ▸ Except.ok.inj hxok).1
            rw [← hre] at hne
            exact absurd hne (by simpa using hm)
          · intro _
            exact ⟨build_output_rows layout wells, hrm⟩
          · intro _
            rw [hrm]
            simp [exit_code]
          · intro hc; rw [hrm] at hc; simp [exit_code] at hc
          · rintro ⟨e, he, _⟩
            rw [hrm] at he
            exact absurd he (by simp)

/-- Witness for C5: a concrete run whose scanned rack ID "OTHER" differs from
the filename stem "EXPECTED" exits with code 2. -/
theorem c5_exit_codes_witness :
    exit_code (runMain ⟨"EXPECTED", [["A1", "S1"]],
      .ok (Json.arr [rackItem "OTHER", wellItem "A1" "W" true true])⟩).1 = 2 :=
  (c5_exit_codes ⟨"EXPECTED", [["A1", "S1"]],
      .ok (Json.arr [rackItem "OTHER", wellItem "A1" "W" true true])⟩).1.mpr
    ⟨[("A01", "S1")], Json.arr [rackItem "OTHER", wellItem "A1" "W" true true],
      "OTHER", [("A01", ⟨"W", true, true⟩)], by rfl, rfl, by
        simp [extract_scanner_results, iter_decode_items, iterDecodeLoop, hasDecodeDict,
          jsonGet, lookupAssoc, rackItem, wellItem, extractStep, decodeOf, idValOf,
          jsonTruthy, pyEqInt, pyStr, stripStr, stripChars, isPySpace, jsonGetD,
          upsertAssoc]
        decide, by decide⟩
